import Mathlib

/-!
Verification of the xim-rs server core: the connection state machine
(`src/server/connection.rs`) and the schema-driven wire codec generator
(`xim-gen/src/lib.rs`).  Bytes are modelled as natural numbers below 256,
machine integers as `Nat` with explicit `% 2^w` where overflow matters.
The primitive reader/writer (`res/snippet.rs`), the slab `ImVec`
(`im_vec.rs`) and the `xim_parser` helpers are not part of the provided
sources; they are modelled from the specification and marked as such.
-/

namespace Xim

/-- Byte order negotiated at connect time (spec section 6.4). -/
inductive Endian
  | le
  | be
deriving DecidableEq

/-- Modelled from the spec: write a u8 (one byte, value taken mod 256). -/
def w8 (n : Nat) : List Nat := [n % 256]

/-- Modelled from the spec: write a u16 in the negotiated byte order. -/
def w16 (e : Endian) (n : Nat) : List Nat :=
  match e with
  | .le => [n % 256, n / 256 % 256]
  | .be => [n / 256 % 256, n % 256]

/-- Modelled from the spec: write a u32 in the negotiated byte order. -/
def w32 (e : Endian) (n : Nat) : List Nat :=
  match e with
  | .le => [n % 256, n / 256 % 256, n / 65536 % 256, n / 16777216 % 256]
  | .be => [n / 16777216 % 256, n / 65536 % 256, n / 256 % 256, n % 256]

/-- Modelled from the spec: read a u8, returning the value and the rest. -/
def r8 : List Nat → Option (Nat × List Nat)
  | [] => none
  | b :: rest => some (b, rest)

/-- Modelled from the spec: read a u16 in the negotiated byte order. -/
def r16 (e : Endian) : List Nat → Option (Nat × List Nat)
  | b0 :: b1 :: rest =>
      match e with
      | .le => some (b0 + 256 * b1, rest)
      | .be => some (256 * b0 + b1, rest)
  | _ => none

/-- Modelled from the spec: read a u32 in the negotiated byte order. -/
def r32 (e : Endian) : List Nat → Option (Nat × List Nat)
  | b0 :: b1 :: b2 :: b3 :: rest =>
      match e with
      | .le => some (b0 + 256 * b1 + 65536 * b2 + 16777216 * b3, rest)
      | .be => some (16777216 * b0 + 65536 * b1 + 256 * b2 + b3, rest)
  | _ => none

/-- Number of pad bytes bringing `n` up to a 4-byte boundary. -/
def pad4 (n : Nat) : Nat := (4 - n % 4) % 4

/-- A decoded XIM attribute: `{id: u16, value: byte-string}` (spec 4.1). -/
structure Attribute where
  id : Nat
  value : List Nat
deriving DecidableEq

/-- Wire size of an attribute: id (2) + length (2) + value + padding to a
    4-byte boundary, mirroring `Attribute::size` of `xim_parser`
    (modelled from the spec, which pads after the variable-length value). -/
def Attribute.size (a : Attribute) : Nat :=
  4 + a.value.length + pad4 a.value.length

/-- Serialise one attribute (little-endian), as `xim_parser` writes it.
    Modelled from the spec: u16 id, u16 length, value bytes, 0-3 pad bytes. -/
def Attribute.write (a : Attribute) : List Nat :=
  w16 .le a.id ++ w16 .le a.value.length ++ a.value ++
    List.replicate (pad4 a.value.length) 0

/-- Modelled from the spec: `xim_parser::read::<Attribute>` on a byte
    buffer.  Requires the id, length, value and padding to be present;
    returns the decoded attribute (the remaining bytes are recovered by
    the caller through `Attribute.size`). -/
def read_attribute (b : List Nat) : Option Attribute :=
  match r16 .le b with
  | none => none
  | some (id, b1) =>
    match r16 .le b1 with
    | none => none
    | some (len, b2) =>
      if len + pad4 len ≤ b2.length then
        some ⟨id, b2.take len⟩
      else
        none

/-- Modelled from the spec: `xim_parser::read::<u32>` on an attribute
    payload (little-endian; fails when fewer than four bytes remain). -/
def read_u32 (b : List Nat) : Option Nat :=
  match r32 .le b with
  | none => none
  | some (n, _) => some n

/-- The `Point` primitive with two i16 coordinates (spec section 3). -/
structure Point where
  x : Int
  y : Int
deriving DecidableEq

/-- Interpret two little-endian bytes as a signed 16-bit integer. -/
def i16OfBytes (b0 b1 : Nat) : Int :=
  let n := b0 + 256 * b1
  if n < 32768 then (n : Int) else (n : Int) - 65536

/-- Modelled from the spec: `xim_parser::read::<Point>`: two i16 fields. -/
def read_point (b : List Nat) : Option Point :=
  match b with
  | b0 :: b1 :: b2 :: b3 :: _ => some ⟨i16OfBytes b0 b1, i16OfBytes b2 b3⟩
  | _ => none

/-- Little-endian bytes of a `Point`, for building concrete wire inputs. -/
def Point.write (p : Point) : List Nat :=
  let ux := (p.x.emod 65536).toNat
  let uy := (p.y.emod 65536).toNat
  [ux % 256, ux / 256 % 256, uy % 256, uy / 256 % 256]

/-- Mirror of `NonZeroU32::new` (and `NonZeroU16::new`): zero becomes
    `none`. -/
def nz (n : Nat) : Option Nat := if n = 0 then none else some n

/-- Per-IC state, translated from `InputContext<T>` in
    `src/server/connection.rs`. -/
structure InputContext (T : Type) where
  client_win : Nat
  app_win : Option Nat
  app_focus_win : Option Nat
  input_method_id : Nat
  input_context_id : Nat
  input_style : Nat
  preedit_spot : Point
  locale : List Nat
  user_data : T
deriving DecidableEq

/-- Mirror of `InputContext::new`: fresh IC with empty style, spot (0,0). -/
def InputContext.new (client_win input_method_id input_context_id : Nat)
    (locale : List Nat) (user_data : T) : InputContext T :=
  { client_win := client_win
    app_win := none
    app_focus_win := none
    input_method_id := input_method_id
    input_context_id := input_context_id
    input_style := 0
    preedit_spot := ⟨0, 0⟩
    locale := locale
    user_data := user_data }

/-- The attribute-id schedule of `set_ic_attrs`. -/
def IC_INPUTSTYLE : Nat := 0
def IC_CLIENTWIN : Nat := 1
def IC_FOCUSWIN : Nat := 2
def IC_PREEDITATTRS : Nat := 3
def IC_SPOTLOCATION : Nat := 4
def IC_NESTED_SEP : Nat := 30

/-- The `IC_PREEDITATTRS` inner loop of `set_ic_attrs`: repeatedly read an
    `Attribute` from the nested buffer, advance by its size, and on id 4
    parse a `Point` from the bytes that FOLLOW the attribute (the source
    reads from `b` after `b = &b[attr.size()..]`, not from `attr.value`).
    Fuel bounds the iteration count; each successful step consumes at
    least four bytes, so `b.length` steps always suffice. -/
def preedit_loop (fuel : Nat) (ic : InputContext T) (b : List Nat) :
    InputContext T :=
  match fuel with
  | 0 => ic
  | fuel + 1 =>
    match read_attribute b with
    | none => ic
    | some attr =>
      let b' := b.drop attr.size
      let ic' :=
        if attr.id = IC_SPOTLOCATION then
          match read_point b' with
          | some spot => { ic with preedit_spot := spot }
          | none => ic
        else ic
      preedit_loop fuel ic' b'

/-- One iteration of the `set_ic_attrs` loop, translated arm by arm from
    `src/server/connection.rs` lines 80-118. -/
def set_ic_attr_step (ic : InputContext T) (attr : Attribute) :
    InputContext T :=
  if attr.id = IC_INPUTSTYLE then
    match read_u32 attr.value with
    | some style => { ic with input_style := style }
    | none => ic
  else if attr.id = IC_CLIENTWIN then
    { ic with app_win := (read_u32 attr.value).bind nz }
  else if attr.id = IC_FOCUSWIN then
    { ic with app_focus_win := (read_u32 attr.value).bind nz }
  else if attr.id = IC_PREEDITATTRS then
    preedit_loop (attr.value.length + 1) ic attr.value
  else
    ic

/-- Mirror of `set_ic_attrs`: fold the step over the attribute list. -/
def set_ic_attrs (ic : InputContext T) (attrs : List Attribute) :
    InputContext T :=
  attrs.foldl set_ic_attr_step ic

/-- Modelled from the spec: the slab `ImVec` of `im_vec.rs`.  Slot `i` of
    `items` holds the item with id `i + 1`; the 0 id is reserved. -/
structure ImVec (T : Type) where
  items : List (Option T)
deriving DecidableEq

/-- The empty slab. -/
def ImVec.empty : ImVec T := ⟨[]⟩

/-- Index of the first free slot (the list length when every slot is
    occupied). -/
def firstFree : List (Option T) → Nat
  | [] => 0
  | none :: _ => 0
  | some _ :: rest => firstFree rest + 1

/-- The id `new_item` will hand out next: smallest free id, at least 1. -/
def ImVec.newItemId (v : ImVec T) : Nat := firstFree v.items + 1

/-- Store `x` at slot `i`, appending when the slot does not exist yet. -/
def storeAt : List (Option T) → Nat → T → List (Option T)
  | [], _, x => [some x]
  | _ :: rest, 0, x => some x :: rest
  | o :: rest, i + 1, x => o :: storeAt rest i x

/-- Modelled from the spec: `new_item` returns the smallest free id
    (at least 1) together with the updated slab. -/
def ImVec.new_item (v : ImVec T) (x : T) : Nat × ImVec T :=
  (v.newItemId, ⟨storeAt v.items (v.newItemId - 1) x⟩)

/-- Modelled from the spec: `get_item` resolves a live id. -/
def ImVec.get_item (v : ImVec T) (id : Nat) : Option T :=
  if id = 0 then none
  else
    match v.items.get? (id - 1) with
    | some (some x) => some x
    | _ => none

/-- Overwrite the item stored under a (live) id. -/
def ImVec.set_item (v : ImVec T) (id : Nat) (x : T) : ImVec T :=
  ⟨storeAt v.items (id - 1) x⟩

/-- Modelled from the spec: `remove_item` frees the slot and returns the
    item together with the updated slab. -/
def ImVec.remove_item (v : ImVec T) (id : Nat) : Option (T × ImVec T) :=
  match v.get_item id with
  | none => none
  | some x => some (x, ⟨v.items.set (id - 1) none⟩)

/-- Live `(id, item)` pairs starting from slot index `k`. -/
def entriesFrom : Nat → List (Option T) → List (Nat × T)
  | _, [] => []
  | k, none :: rest => entriesFrom (k + 1) rest
  | k, some x :: rest => (k + 1, x) :: entriesFrom (k + 1) rest

/-- Modelled from the spec: the live `(id, item)` pairs of a slab, in
    slot order (this is the order `drain` and `IntoIterator` yield). -/
def ImVec.entries (v : ImVec T) : List (Nat × T) := entriesFrom 0 v.items

/-- Modelled from the spec: `drain` yields every remaining pair and
    leaves the slab empty. -/
def ImVec.drain (v : ImVec T) : List (Nat × T) × ImVec T :=
  (v.entries, ImVec.empty)

/-- Per-IM state: a locale and a slab of input contexts. -/
structure InputMethod (T : Type) where
  locale : List Nat
  input_contexts : ImVec (InputContext T)
deriving DecidableEq

/-- Mirror of `InputMethod::new`. -/
def InputMethod.new (locale : List Nat) : InputMethod T :=
  ⟨locale, ImVec.empty⟩

/-- The `ErrorCode` values used by the connection. -/
inductive ErrorCode
  | badName
  | badProtocol
deriving DecidableEq

/-- Attribute names appearing in `OpenReply` (from `xim_parser`). -/
inductive AttributeName
  | queryInputStyle
  | inputStyle
  | clientWindow
  | focusWindow
  | preeditAttributes
  | spotLocation
  | separatorofNestedList
deriving DecidableEq

/-- Attribute types appearing in `OpenReply` (from `xim_parser`). -/
inductive AttrType
  | style
  | long
  | window
  | nestedList
  | xPoint
  | separator
deriving DecidableEq

/-- An attribute descriptor (`Attr`) advertised in `OpenReply`. -/
structure AttrDesc where
  id : Nat
  name : AttributeName
  ty : AttrType
deriving DecidableEq

/-- The `ErrorFlag::INPUTMETHODIDVALID` bit (bit 0 of the flag word). -/
def errorFlagInputMethodIdValid : Nat := 1

/-- The `ForwardEventFlag::SYNCHRONOUS` bit (bit 0 of the flag word). -/
def forwardEventFlagSynchronous : Nat := 1

/-- The request union, restricted to the variants the connection state
    machine matches on plus the replies it sends; every variant the Rust
    `match` leaves to its `_ => log` arm is collapsed into `other`. -/
inductive Request
  | error (code : ErrorCode) (detail : String) (flag : Nat)
      (input_method_id : Nat) (input_context_id : Nat)
  | connect
  | connectReply (server_major_protocol_version : Nat)
      (server_minor_protocol_version : Nat)
  | disconnect
  | disconnectReply
  | openIm (locale : List Nat)
  | openReply (input_method_id : Nat) (im_attrs : List AttrDesc)
      (ic_attrs : List AttrDesc)
  | createIc (input_method_id : Nat) (ic_attributes : List Attribute)
  | createIcReply (input_method_id : Nat) (input_context_id : Nat)
  | destroyIc (input_method_id : Nat) (input_context_id : Nat)
  | destroyIcReply (input_method_id : Nat) (input_context_id : Nat)
  | close (input_method_id : Nat)
  | closeReply (input_method_id : Nat)
  | queryExtension (input_method_id : Nat)
  | queryExtensionReply (input_method_id : Nat) (extensions : List Nat)
  | encodingNegotiation (input_method_id : Nat)
      (encodings : List (List Nat))
  | encodingNegotiationReply (input_method_id : Nat) (category : Nat)
      (index : Nat)
  | getImValues (input_method_id : Nat) (im_attributes : List Nat)
  | getImValuesReply (input_method_id : Nat)
      (im_attributes : List Attribute)
  | setIcValues (input_method_id : Nat) (input_context_id : Nat)
      (ic_attributes : List Attribute)
  | setIcValuesReply (input_method_id : Nat) (input_context_id : Nat)
  | setIcFocus (input_method_id : Nat) (input_context_id : Nat)
  | unsetIcFocus (input_method_id : Nat) (input_context_id : Nat)
  | preeditCaretReply (input_method_id : Nat) (input_context_id : Nat)
      (position : Int)
  | preeditStartReply (input_method_id : Nat) (input_context_id : Nat)
      (return_value : Int)
  | forwardEvent (input_method_id : Nat) (input_context_id : Nat)
      (serial_number : Nat) (flag : Nat) (xev : List Nat)
  | syncReply (input_method_id : Nat) (input_context_id : Nat)
  | other
deriving DecidableEq

/-- Observable effects of handling one request: requests sent through the
    server transport (`send_req`), errors sent through the `error`
    shorthand, and invocations of the embedder's handler callbacks. -/
inductive Output (T : Type)
  | sent (win : Nat) (req : Request)
  | sentErr (win : Nat) (code : ErrorCode) (detail : String)
      (input_method_id : Option Nat) (input_context_id : Option Nat)
  | connected
  | createdIc (ic : InputContext T)
  | destroyedIc (ic : InputContext T)
  | caret (ic : InputContext T) (position : Int)
  | preeditStarted (ic : InputContext T)
  | forwarded (ic : InputContext T) (xev : List Nat)
deriving DecidableEq

/-- The embedder-provided handler (spec section 6.2), as pure data: the
    fresh per-IC payload, the advertised styles, and the forward-event
    verdict.  Callbacks themselves are recorded as `Output` events. -/
structure Handler (T : Type) where
  new_ic_data : T
  input_styles : List Nat
  forward_consumed : InputContext T → List Nat → Bool

/-- Per-client connection state, from `XimConnection<T>`. -/
structure XimConnection (T : Type) where
  client_win : Nat
  disconnected : Bool
  last_focused : Option (Nat × Nat)
  input_methods : ImVec (InputMethod T)
deriving DecidableEq

/-- Mirror of `XimConnection::new`. -/
def XimConnection.new (client_win : Nat) : XimConnection T :=
  ⟨client_win, false, none, ImVec.empty⟩

/-- Composition of `get_input_method` and `get_input_context`: resolve an
    (im id, ic id) pair to its input context. -/
def XimConnection.get_input_context (c : XimConnection T)
    (im_id ic_id : Nat) : Option (InputContext T) :=
  match c.input_methods.get_item im_id with
  | none => none
  | some im => im.input_contexts.get_item ic_id

/-- Mirror of `XimConnection::disconnect`: drain every input method, emit a
    destroy-ic callback for each contained input context, and set the
    `disconnected` flag. -/
def XimConnection.disconnect (c : XimConnection T) :
    XimConnection T × List (Output T) :=
  let drained := c.input_methods.drain
  ({ c with input_methods := drained.2, disconnected := true },
   (drained.1.map
      (fun p => p.2.input_contexts.entries.map
        (fun q => Output.destroyedIc q.2))).flatten)

/-- The single IM attribute descriptor advertised in `OpenReply`. -/
def openImAttrs : List AttrDesc :=
  [⟨0, .queryInputStyle, .style⟩]

/-- The six IC attribute descriptors advertised in `OpenReply`. -/
def openIcAttrs : List AttrDesc :=
  [⟨IC_INPUTSTYLE, .inputStyle, .long⟩,
   ⟨IC_CLIENTWIN, .clientWindow, .window⟩,
   ⟨IC_FOCUSWIN, .focusWindow, .window⟩,
   ⟨IC_PREEDITATTRS, .preeditAttributes, .nestedList⟩,
   ⟨IC_SPOTLOCATION, .spotLocation, .xPoint⟩,
   ⟨IC_NESTED_SEP, .separatorofNestedList, .separator⟩]

/-- Modelled from the spec: `xim_parser::write_to_vec(InputStyleList)`,
    the payload of the id-0 IM attribute (a counted list of u32 styles).
    No claim inspects these bytes. -/
def write_styles (styles : List Nat) : List Nat :=
  w16 .le styles.length ++ w16 .le 0 ++ (styles.map (w32 .le)).flatten

/-- The `GetImValues` loop: push an `InputStyleList` attribute for id 0,
    abort with a `BadName` error (discarding `out`) on any other id, and
    send the accumulated reply when the list is exhausted. -/
def get_im_values_loop (h : Handler T) (client_win im_id : Nat) :
    List Nat → List Attribute → List (Output T)
  | [], out => [.sent client_win (.getImValuesReply im_id out)]
  | id :: rest, out =>
    if id = 0 then
      get_im_values_loop h client_win im_id rest
        (out ++ [⟨id, write_styles h.input_styles⟩])
    else
      [.sentErr client_win .badName "Unknown im attribute id"
        (nz im_id) none]

/-- The ASCII bytes of `COMPOUND_TEXT`. -/
def compoundText : List Nat :=
  [67, 79, 77, 80, 79, 85, 78, 68, 95, 84, 69, 88, 84]

/-- Mirror of `Iterator::position`: index of the first match of `p`. -/
def position (p : α → Bool) : List α → Option Nat
  | [] => none
  | x :: rest => if p x then some 0 else (position p rest).map (· + 1)

/-- Mirror of `XimConnection::handle_request`, translated arm by arm from
    `src/server/connection.rs`.  `none` stands for the only error the
    model can produce, `ServerError::ClientNotExists` (transport sends
    are modelled as infallible, handler callbacks as pure); on `none`
    the connection state is unchanged, matching the source, where every
    fallible lookup precedes the arm's mutations. -/
def handle_request (h : Handler T) (st : XimConnection T) (req : Request) :
    Option (XimConnection T × List (Output T)) :=
  match req with
  | .error _ _ _ _ _ => some (st, [])
  | .connect =>
      some (st, [.sent st.client_win (.connectReply 1 0), .connected])
  | .disconnect =>
      let d := st.disconnect
      some (d.1, d.2 ++ [.sent st.client_win .disconnectReply])
  | .openIm locale =>
      let r := st.input_methods.new_item (InputMethod.new locale)
      some ({ st with input_methods := r.2 },
        [.sent st.client_win (.openReply r.1 openImAttrs openIcAttrs)])
  | .createIc im_id ic_attributes =>
      match st.input_methods.get_item im_id with
      | none => none
      | some im =>
        let ic0 := InputContext.new st.client_win im_id 1 im.locale
          h.new_ic_data
        let ic1 := set_ic_attrs ic0 ic_attributes
        let r := im.input_contexts.new_item ic1
        let ic2 := { ic1 with input_context_id := r.1 }
        let ics := r.2.set_item r.1 ic2
        some ({ st with input_methods :=
                  (st.input_methods.set_item im_id
                    { im with input_contexts := ics }) },
          [.sent ic2.client_win (.createIcReply im_id r.1),
           .createdIc ic2])
  | .destroyIc im_id ic_id =>
      match st.input_methods.get_item im_id with
      | none => none
      | some im =>
        match im.input_contexts.remove_item ic_id with
        | none => none
        | some (ic, ics) =>
          some ({ st with input_methods :=
                    (st.input_methods.set_item im_id
                      { im with input_contexts := ics }) },
            [.destroyedIc ic,
             .sent st.client_win (.destroyIcReply im_id ic_id)])
  | .close im_id =>
      match st.input_methods.remove_item im_id with
      | none => none
      | some (im, ims) =>
        some ({ st with input_methods := ims },
          im.input_contexts.entries.map (fun q => Output.destroyedIc q.2)
            ++ [.sent st.client_win (.closeReply im_id)])
  | .queryExtension im_id =>
      some (st, [.sent st.client_win (.queryExtensionReply im_id [])])
  | .encodingNegotiation im_id encodings =>
      match position (fun e => compoundText.isPrefixOf e) encodings with
      | some pos =>
          some (st,
            [.sent st.client_win
              (.encodingNegotiationReply im_id 0 (pos % 65536))])
      | none =>
          some (st,
            [.sent st.client_win
              (.error .badName "Only COMPOUND_TEXT encoding is supported"
                errorFlagInputMethodIdValid im_id 0)])
  | .getImValues im_id im_attributes =>
      some (st, get_im_values_loop h st.client_win im_id im_attributes [])
  | .setIcValues im_id ic_id ic_attributes =>
      match st.input_methods.get_item im_id with
      | none => none
      | some im =>
        match im.input_contexts.get_item ic_id with
        | none => none
        | some ic =>
          let ic' := set_ic_attrs ic ic_attributes
          some ({ st with input_methods :=
                    (st.input_methods.set_item im_id
                      { im with input_contexts :=
                          im.input_contexts.set_item ic_id ic' }) },
            [.sent ic'.client_win (.setIcValuesReply im_id ic_id)])
  | .setIcFocus im_id ic_id =>
      match st.input_methods.get_item im_id with
      | none => none
      | some im =>
        match im.input_contexts.get_item ic_id with
        | none => none
        | some ic =>
          let p := (ic.input_method_id, ic.input_context_id)
          some ({ st with last_focused := some p }, [])
  | .unsetIcFocus im_id ic_id =>
      match st.input_methods.get_item im_id with
      | none => none
      | some im =>
        match im.input_contexts.get_item ic_id with
        | none => none
        | some _ => some ({ st with last_focused := none }, [])
  | .preeditCaretReply im_id ic_id pos =>
      match st.input_methods.get_item im_id with
      | none => none
      | some im =>
        match im.input_contexts.get_item ic_id with
        | none => none
        | some ic => some (st, [.caret ic pos])
  | .preeditStartReply im_id ic_id _ =>
      match st.input_methods.get_item im_id with
      | none => none
      | some im =>
        match im.input_contexts.get_item ic_id with
        | none => none
        | some ic => some (st, [.preeditStarted ic])
  | .forwardEvent im_id ic_id serial flag xev =>
      match st.input_methods.get_item im_id with
      | none => none
      | some im =>
        match im.input_contexts.get_item ic_id with
        | none => none
        | some ic =>
          let consumed := h.forward_consumed ic xev
          some (st,
            [.forwarded ic xev]
            ++ (if consumed then []
                else [.sent st.client_win
                  (.forwardEvent im_id ic_id serial 0 xev)])
            ++ (if flag.testBit 0 then
                  [.sent st.client_win (.syncReply im_id ic_id)]
                else []))
  | _ => some (st, [])

/-- Run a request sequence, threading the state and concatenating the
    outputs; a `ClientNotExists` failure aborts that request only. -/
def run_requests (h : Handler T) (st : XimConnection T) :
    List Request → XimConnection T × List (Output T)
  | [] => (st, [])
  | r :: rest =>
    match handle_request h st r with
    | none => run_requests h st rest
    | some (st1, out1) =>
      let k := run_requests h st1 rest
      (k.1, out1 ++ k.2)

/-- The connection registry, from `XimConnections<T>` (an `AHashMap`
    keyed by communication window). -/
structure XimConnections (T : Type) where
  connections : Nat → Option (XimConnection T)

/-- Mirror of `XimConnections::new`. -/
def XimConnections.newRegistry : XimConnections T := ⟨fun _ => none⟩

/-- Mirror of `XimConnections::new_connection`: unconditionally insert a fresh
    connection under `com_win` (a `HashMap::insert`, so any existing
    entry is replaced).  The body performs no handler calls, hence the
    literally empty output list. -/
def XimConnections.new_connection (c : XimConnections T)
    (com_win client_win : Nat) : XimConnections T × List (Output T) :=
  (⟨fun k => if k = com_win then some (XimConnection.new client_win)
             else c.connections k⟩, [])

/-- Mirror of `XimConnections::get_connection`. -/
def XimConnections.get_connection (c : XimConnections T) (com_win : Nat) :
    Option (XimConnection T) :=
  c.connections com_win

namespace Gen

/-!
The codec that `xim-gen/src/lib.rs` generates from the schema.  The
schema file itself is not among the provided sources, so requests are
modelled over an arbitrary schema (a list of entries with a `u8` major
opcode, an optional `u8` minor opcode and an ordered field list), as the
spec describes it in section 4.1.  The generator source is the authority
for the header logic: `write` emits the major opcode as a u8, the minor
opcode (`unwrap_or(0)`) as a u8 and `(size - 4) / 4` as a u16, while
`read` consumes TWO u16 words before matching `(major, minor)` against
the schema's opcode patterns (a wildcard when `minor_opcode` is omitted).
-/

/-- Body field types of a schema entry. -/
inductive FieldTy
  | u8
  | u16
  | u32
  | str
deriving DecidableEq

/-- Body field values of a request. -/
inductive FieldVal
  | vU8 (n : Nat)
  | vU16 (n : Nat)
  | vU32 (n : Nat)
  | vStr (s : List Nat)
deriving DecidableEq

/-- Pad bytes after a byte-string of the given length (modelled from the
    spec: a u16 length prefix, the bytes, then padding to a 4-byte
    boundary). -/
def padStr (len : Nat) : Nat := pad4 (2 + len)

/-- The generated `XimFormat::write` of one body field. -/
def writeField (e : Endian) : FieldVal → List Nat
  | .vU8 n => w8 n
  | .vU16 n => w16 e n
  | .vU32 n => w32 e n
  | .vStr s => w16 e s.length ++ s ++ List.replicate (padStr s.length) 0

/-- The generated `XimFormat::size` of one body field. -/
def sizeField : FieldVal → Nat
  | .vU8 _ => 1
  | .vU16 _ => 2
  | .vU32 _ => 4
  | .vStr s => 2 + s.length + padStr s.length

/-- The generated `XimFormat::read` of one body field. -/
def readField (e : Endian) : FieldTy → List Nat → Option (FieldVal × List Nat)
  | .u8, b =>
    match r8 b with
    | none => none
    | some (n, rest) => some (.vU8 n, rest)
  | .u16, b =>
    match r16 e b with
    | none => none
    | some (n, rest) => some (.vU16 n, rest)
  | .u32, b =>
    match r32 e b with
    | none => none
    | some (n, rest) => some (.vU32 n, rest)
  | .str, b =>
    match r16 e b with
    | none => none
    | some (len, rest) =>
      if len + padStr len ≤ rest.length then
        some (.vStr (rest.take len), rest.drop (len + padStr len))
      else
        none

/-- Read the declared body fields in declaration order. -/
def readFields (e : Endian) :
    List FieldTy → List Nat → Option (List FieldVal × List Nat)
  | [], b => some ([], b)
  | ty :: tys, b =>
    match readField e ty b with
    | none => none
    | some (v, rest) =>
      match readFields e tys rest with
      | none => none
      | some (vs, rest') => some (v :: vs, rest')

/-- One schema request entry (`RequestFormat` in `xim-gen/src/lib.rs`). -/
structure Entry where
  major_opcode : Nat
  minor_opcode : Option Nat
  body : List FieldTy
deriving DecidableEq

/-- A request value of the generated tagged union: the index of its
    schema entry together with its body field values. -/
structure Req where
  idx : Nat
  vals : List FieldVal
deriving DecidableEq

/-- The generated `size`: 4 header bytes plus the field sizes. -/
def Req.size (r : Req) : Nat := 4 + (r.vals.map sizeField).sum

/-- The generated `write`: u8 major opcode, u8 minor opcode
    (`unwrap_or(0)`), u16 `(size - 4) / 4`, then the body fields in
    declaration order. -/
def write (e : Endian) (S : List Entry) (r : Req) : List Nat :=
  match S.get? r.idx with
  | none => []
  | some ent =>
    w8 ent.major_opcode ++ w8 (ent.minor_opcode.getD 0) ++
      w16 e ((r.size - 4) / 4) ++ (r.vals.map (writeField e)).flatten

/-- One generated match arm: `(major, minor)` with a wildcard minor when
    the schema omits the minor opcode. -/
def entryMatches (ent : Entry) (maj mino : Nat) : Bool :=
  decide (ent.major_opcode = maj) &&
    (match ent.minor_opcode with
     | none => true
     | some m => decide (m = mino))

/-- The generated `read`: `reader.u16()` twice for the opcodes, then the
    arm match, then the entry's body fields. -/
def read (e : Endian) (S : List Entry) (b : List Nat) : Option Req :=
  match r16 e b with
  | none => none
  | some (maj, b1) =>
    match r16 e b1 with
    | none => none
    | some (mino, b2) =>
      match position (fun ent => entryMatches ent maj mino) S with
      | none => none
      | some idx =>
        match S.get? idx with
        | none => none
        | some ent =>
          match readFields e ent.body b2 with
          | none => none
          | some (vs, _) => some ⟨idx, vs⟩

/-- A field value is well typed for a field type when it is the matching
    constructor and within the type's numeric range. -/
def wtVal : FieldVal → FieldTy → Bool
  | .vU8 n, .u8 => decide (n < 256)
  | .vU16 n, .u16 => decide (n < 65536)
  | .vU32 n, .u32 => decide (n < 4294967296)
  | .vStr s, .str => decide (s.length < 65536)
  | _, _ => false

/-- Pointwise well-typedness of a body against a field-type list. -/
def wtList : List FieldVal → List FieldTy → Bool
  | [], [] => true
  | v :: vs, t :: ts => wtVal v t && wtList vs ts
  | _, _ => false

/-- A request belongs to the schema's tagged union: its entry exists,
    its major opcode is a u8, and its body matches the declared fields. -/
def wt (S : List Entry) (r : Req) : Bool :=
  match S.get? r.idx with
  | none => false
  | some ent => decide (ent.major_opcode < 256) && wtList r.vals ent.body

/-- A mixed two-entry sample schema: a minor-free entry with `u16` and
    byte-string body next to an entry that declares minor opcode 7. -/
def sampleSchema : List Entry := [⟨1, none, [.u16, .str]⟩, ⟨2, some 7, [.u8]⟩]

/-- A sample request over `sampleSchema`. -/
def sampleReq : Req := ⟨0, [.vU16 300, .vStr [1, 2, 3]]⟩

/-- A one-entry schema without a minor opcode. -/
def plainSchema : List Entry := [⟨1, none, []⟩]

/-- A one-entry schema declaring minor opcode 1. -/
def minorSchema : List Entry := [⟨1, some 1, []⟩]

/-- The body-less request of a one-entry schema. -/
def emptyReq : Req := ⟨0, []⟩

end Gen

/-- The transport requests among a list of outputs, in emission order. -/
def sent_reqs (outs : List (Output T)) : List Request :=
  outs.filterMap (fun o =>
    match o with
    | .sent _ rq => some rq
    | _ => none)

/-- Every live input context of a connection, in slab order. -/
def all_ics (st : XimConnection T) : List (InputContext T) :=
  (st.input_methods.entries.map
    (fun p => p.2.input_contexts.entries.map Prod.snd)).flatten

/-- Stamp consistency: every live input context carries the slab ids
    under which it is reachable.  It holds in every state reachable from
    a fresh connection; claim C4's amended theorem assumes it. -/
def well_stamped (st : XimConnection T) : Bool :=
  st.input_methods.entries.all (fun p =>
    p.2.input_contexts.entries.all (fun q =>
      decide (q.2.input_method_id = p.1) &&
        decide (q.2.input_context_id = q.1)))

/-- A concrete handler over `Unit` IC data that consumes every event. -/
def hC : Handler Unit := ⟨(), [1], fun _ _ => true⟩

/-- A fresh concrete input context (client window 7, IM 1, IC 1). -/
def icW : InputContext Unit := InputContext.new 7 1 1 [101] ()

/-- A concrete input method holding `icW` under id 1. -/
def imW : InputMethod Unit := ⟨[101], ⟨[some icW]⟩⟩

/-- A concrete connection holding `imW` under id 1. -/
def stW : XimConnection Unit := ⟨7, false, none, ⟨[some imW]⟩⟩

/-- A concrete connection holding one empty input method under id 1. -/
def stOpen : XimConnection Unit := ⟨7, false, none, ⟨[some (InputMethod.new [101])]⟩⟩

/-- Open an IM, create an IC, focus it, then destroy it. -/
def staleRun : XimConnection Unit × List (Output Unit) :=
  run_requests hC (XimConnection.new 7)
    [.openIm [101], .createIc 1 [], .setIcFocus 1 1, .destroyIc 1 1]

/-- The context `icW` with an application window already recorded. -/
def icPrior : InputContext Unit := { icW with app_win := some 51966 }

/-- The attribute list of spec scenario S6: a top-level PREEDITATTRS
    attribute whose value is a nested list holding one SPOTLOCATION
    attribute carrying the point (10, 20). -/
def spotAttrs : List Attribute :=
  [⟨IC_PREEDITATTRS, Attribute.write ⟨IC_SPOTLOCATION, Point.write ⟨10, 20⟩⟩⟩]

/-! ### Helper lemmas -/

theorem position_eq_some (p : α → Bool) (l : List α) (i : Nat)
    (hi : i < l.length) (hp : p (l.get ⟨i, hi⟩) = true)
    (hmin : ∀ j (hj : j < l.length), j < i → p (l.get ⟨j, hj⟩) = false) :
    position p l = some i := by
  induction l generalizing i with
  | nil => simp at hi
  | cons x rest ih =>
    cases i with
    | zero =>
      simp only [List.get] at hp
      simp [position, hp]
    | succ i' =>
      have hx : p x = false := hmin 0 (Nat.succ_pos _) (Nat.succ_pos _)
      simp only [position, hx]
      have hrec := ih i' (Nat.lt_of_succ_lt_succ hi) hp
        (fun j hj hji => hmin (j + 1) (Nat.succ_lt_succ hj)
          (Nat.succ_lt_succ hji))
      simp [hrec]

theorem position_eq_none (p : α → Bool) (l : List α)
    (h : ∀ a ∈ l, p a = false) : position p l = none := by
  induction l with
  | nil => rfl
  | cons x rest ih =>
    have hx := h x (List.mem_cons_self x rest)
    simp [position, hx, ih (fun a ha => h a (List.mem_cons_of_mem x ha))]

theorem r8_w8 (n : Nat) (h : n < 256) (rest : List Nat) :
    r8 (w8 n ++ rest) = some (n, rest) := by
  simp [w8, r8, Nat.mod_eq_of_lt h]

theorem r16_w16 (e : Endian) (n : Nat) (rest : List Nat) :
    r16 e (w16 e n ++ rest) = some (n % 65536, rest) := by
  cases e <;> simp [w16, r16] <;> omega

theorem r16_w16_of_lt (e : Endian) (n : Nat) (h : n < 65536)
    (rest : List Nat) : r16 e (w16 e n ++ rest) = some (n, rest) := by
  rw [r16_w16, Nat.mod_eq_of_lt h]

theorem r32_w32 (e : Endian) (n : Nat) (h : n < 4294967296)
    (rest : List Nat) : r32 e (w32 e n ++ rest) = some (n, rest) := by
  cases e <;> simp [w32, r32] <;> omega

namespace Gen

theorem readField_writeField (e : Endian) (ty : FieldTy) (v : FieldVal)
    (h : wtVal v ty = true) (rest : List Nat) :
    readField e ty (writeField e v ++ rest) = some (v, rest) := by
  cases v <;> cases ty <;>
    (try (simp only [wtVal] at h; exact Bool.noConfusion h)) <;>
    simp only [wtVal, decide_eq_true_eq] at h
  case vU8.u8 n =>
    simp [writeField, readField, r8_w8 n h]
  case vU16.u16 n =>
    simp [writeField, readField, r16_w16_of_lt e n h]
  case vU32.u32 n =>
    simp [writeField, readField, r32_w32 e n h]
  case vStr.str s =>
    have hpack : s ++ List.replicate (padStr s.length) 0 ++ rest
        = (s ++ List.replicate (padStr s.length) 0) ++ rest := by
      simp [List.append_assoc]
    have hlen : (s ++ List.replicate (padStr s.length) 0).length
        = s.length + padStr s.length := by
      simp
    simp only [writeField, readField, List.append_assoc,
      r16_w16_of_lt e s.length h]
    rw [← List.append_assoc]
    have hle : s.length + padStr s.length
        ≤ ((s ++ List.replicate (padStr s.length) 0) ++ rest).length := by
      simp [hlen]
    rw [if_pos hle]
    have htake : ((s ++ List.replicate (padStr s.length) 0) ++ rest).take
        s.length = s := by
      rw [List.append_assoc]
      exact List.take_left s (List.replicate (padStr s.length) 0 ++ rest)
    have hdrop : ((s ++ List.replicate (padStr s.length) 0) ++ rest).drop
        (s.length + padStr s.length) = rest := by
      have := List.drop_left (s ++ List.replicate (padStr s.length) 0) rest
      rwa [hlen] at this
    rw [htake, hdrop]

theorem readFields_writeFields (e : Endian) (tys : List FieldTy)
    (vs : List FieldVal) (h : wtList vs tys = true) (rest : List Nat) :
    readFields e tys ((vs.map (writeField e)).flatten ++ rest)
      = some (vs, rest) := by
  induction vs generalizing tys rest with
  | nil =>
    cases tys with
    | nil => simp [readFields]
    | cons t ts => simp [wtList] at h
  | cons v vs' ih =>
    cases tys with
    | nil => simp [wtList] at h
    | cons t ts =>
      simp only [wtList, Bool.and_eq_true] at h
      simp only [List.map_cons, List.flatten_cons, List.append_assoc,
        readFields, readField_writeField e t v h.1]
      rw [ih ts h.2]

/-- Claim C1 (amended): for a little-endian connection, the generated
    write followed by the generated read is the identity on every
    request whose schema entry omits the minor opcode (so the generated
    arm is `(major, _)`) and whose major opcode selects its entry
    uniquely.  The generated read consumes the major and minor opcodes
    as two u16 words (not two u8s), so the wildcard arm silently absorbs
    the body-length word; with a declared minor opcode, or in big-endian
    mode, the header no longer matches (see the counterexample). -/
theorem request_read_write_roundtrip (S : List Entry) (r : Req)
    (ent : Entry) (hent : S.get? r.idx = some ent)
    (hwt : wt S r = true)
    (hme : ent.minor_opcode = none)
    (huniq : ∀ j (hj : j < S.length), j ≠ r.idx →
      (S.get ⟨j, hj⟩).major_opcode ≠ ent.major_opcode) :
    read .le S (write .le S r) = some r := by
  have hch := hwt
  have hent' : S[r.idx]? = some ent := by
    rw [← List.get?_eq_getElem?]
    exact hent
  simp only [wt, hent, hent', Bool.and_eq_true, decide_eq_true_eq] at hch
  obtain ⟨hmaj, hlist⟩ := hch
  obtain ⟨hlt, hget⟩ := List.get?_eq_some.mp hent
  have hw : write .le S r = ent.major_opcode :: 0 ::
      (w16 .le ((r.size - 4) / 4) ++ (r.vals.map (writeField .le)).flatten)
      := by
    simp [write, hent, hent', hme, w8, Nat.mod_eq_of_lt hmaj]
  have hpos : ∀ m, position
      (fun en => entryMatches en ent.major_opcode m) S = some r.idx := by
    intro m
    apply position_eq_some _ _ _ hlt
    · rw [hget]
      simp [entryMatches, hme]
    · intro j hj hji
      have hne := huniq j hj (Nat.ne_of_lt hji)
      simp only [List.get_eq_getElem] at hne
      simp [entryMatches]
      intro hcontra
      exact absurd hcontra hne
  have hrf : readFields .le ent.body
      ((r.vals.map (writeField .le)).flatten) = some (r.vals, []) := by
    have := readFields_writeFields .le ent.body r.vals hlist []
    rwa [List.append_nil] at this
  rw [hw]
  simp only [read, r16, w16, List.cons_append, List.nil_append, hpos,
    hent, hent', hrf, Nat.mul_zero, Nat.add_zero]

/-- Witness for C1's amended theorem: in the mixed schema, the request
    of the minor-free entry (u16 and byte-string body) roundtrips in
    little-endian mode even though the other entry declares a minor
    opcode. -/
theorem request_read_write_roundtrip_witness :
    read .le sampleSchema (write .le sampleSchema sampleReq)
      = some sampleReq :=
  request_read_write_roundtrip sampleSchema sampleReq ⟨1, none, [.u16, .str]⟩
    (by decide) (by decide) (by decide) (by decide)

/-- Counterexample to C1 as stated: with the negotiated byte order big
    endian, the body-less request of the one-entry schema `plainSchema`
    writes as `[1, 0, 0, 0]`, but the generated read consumes the first
    two bytes as the u16 256, which matches no arm; likewise a declared
    minor opcode 1 (`minorSchema`) makes even the little-endian read of
    its own output fail, since the u16 major word is 257. -/
theorem request_roundtrip_fails_big_endian :
    wt plainSchema emptyReq = true
    ∧ read .be plainSchema (write .be plainSchema emptyReq) = none
    ∧ wt minorSchema emptyReq = true
    ∧ read .le minorSchema (write .le minorSchema emptyReq) = none := by
  decide

end Gen

/-- Claim C2 (amended): in `set_ic_attrs`, a payload that fails to parse
    leaves `input_style` unchanged for id 0 and the request keeps
    processing the remaining attributes, but for ids 1 and 2 the field
    is unconditionally overwritten with the parse result, so a malformed
    payload RESETS `app_win` (resp. `app_focus_win`) to `none` instead
    of keeping the prior value; attributes with ids outside the schedule
    change nothing. -/
theorem set_ic_attrs_failure_behaviour (ic : InputContext T) (v : List Nat)
    (rest : List Attribute) (hbad : read_u32 v = none) :
    set_ic_attrs ic (⟨IC_INPUTSTYLE, v⟩ :: rest) = set_ic_attrs ic rest
    ∧ set_ic_attrs ic (⟨IC_CLIENTWIN, v⟩ :: rest)
        = set_ic_attrs { ic with app_win := none } rest
    ∧ set_ic_attrs ic (⟨IC_FOCUSWIN, v⟩ :: rest)
        = set_ic_attrs { ic with app_focus_win := none } rest
    ∧ ∀ a : Attribute, a.id ≠ 0 → a.id ≠ 1 → a.id ≠ 2 → a.id ≠ 3 →
        set_ic_attrs ic (a :: rest) = set_ic_attrs ic rest := by
  refine ⟨?_, ?_, ?_, ?_⟩
  · simp [set_ic_attrs, set_ic_attr_step, IC_INPUTSTYLE, IC_CLIENTWIN,
      IC_FOCUSWIN, IC_PREEDITATTRS, hbad]
  · simp [set_ic_attrs, set_ic_attr_step, IC_INPUTSTYLE, IC_CLIENTWIN,
      IC_FOCUSWIN, IC_PREEDITATTRS, hbad]
  · simp [set_ic_attrs, set_ic_attr_step, IC_INPUTSTYLE, IC_CLIENTWIN,
      IC_FOCUSWIN, IC_PREEDITATTRS, hbad]
  · intro a h0 h1 h2 h3
    simp [set_ic_attrs, set_ic_attr_step, IC_INPUTSTYLE, IC_CLIENTWIN,
      IC_FOCUSWIN, IC_PREEDITATTRS, h0, h1, h2, h3]

/-- Witness for C2's amended theorem at the concrete context `icPrior`
    and the empty (hence unparseable) payload. -/
theorem set_ic_attrs_failure_behaviour_witness :
    read_u32 ([] : List Nat) = none
    ∧ set_ic_attrs icPrior [⟨IC_CLIENTWIN, []⟩]
        = set_ic_attrs { icPrior with app_win := none } [] :=
  ⟨by decide, (set_ic_attrs_failure_behaviour icPrior [] [] (by decide)).2.1⟩

/-- Counterexample to C2 as stated: the context `icPrior` holds
    `app_win = some 51966`; a CLIENTWIN attribute with an empty (hence
    malformed) payload does not keep the prior value but clears the
    field to `none`. -/
theorem set_ic_attrs_malformed_clientwin_clears :
    icPrior.app_win = some 51966
    ∧ (set_ic_attrs icPrior [⟨IC_CLIENTWIN, []⟩]).app_win = none := by
  decide

/-- Claim C3 (code bug): on the spec's scenario S6 input - a top-level
    PREEDITATTRS attribute whose nested list holds one SPOTLOCATION
    attribute carrying the point (10, 20) - `set_ic_attrs` leaves
    `preedit_spot` at (0, 0), because the nested branch advances past
    the SPOTLOCATION attribute and then parses the `Point` from the
    bytes that FOLLOW it (here: none) instead of from its value.  The
    third conjunct exhibits the actual behaviour: bytes placed AFTER a
    SPOTLOCATION attribute inside the nested list are the ones parsed
    into the spot.  The final conjunct confirms the claim's second half:
    a top-level SPOTLOCATION attribute changes nothing. -/
theorem set_ic_attrs_nested_spot_not_set :
    icW.preedit_spot = ⟨0, 0⟩
    ∧ (set_ic_attrs icW spotAttrs).preedit_spot = ⟨0, 0⟩
    ∧ (set_ic_attrs icW
        [⟨IC_PREEDITATTRS, Attribute.write ⟨IC_SPOTLOCATION, []⟩
            ++ [10, 0, 20, 0]⟩]).preedit_spot = ⟨10, 20⟩
    ∧ set_ic_attrs icW [⟨IC_SPOTLOCATION, Point.write ⟨10, 20⟩⟩] = icW
    := by
  decide

theorem firstFree_le_length (items : List (Option T)) :
    firstFree items ≤ items.length := by
  induction items with
  | nil => simp [firstFree]
  | cons o rest ih =>
    cases o with
    | none => simp [firstFree]
    | some x =>
      simp only [firstFree, List.length_cons]
      omega

theorem get?_storeAt_self (items : List (Option T)) (i : Nat) (x : T)
    (h : i ≤ items.length) : (storeAt items i x).get? i = some (some x) := by
  induction items generalizing i with
  | nil =>
    have : i = 0 := by simpa using h
    subst this
    rfl
  | cons o rest ih =>
    cases i with
    | zero => rfl
    | succ i' =>
      simp only [storeAt, List.get?]
      exact ih i' (by simpa using h)

theorem lt_length_storeAt (items : List (Option T)) (i : Nat) (x : T)
    (h : i ≤ items.length) : i < (storeAt items i x).length := by
  induction items generalizing i with
  | nil =>
    have : i = 0 := by simpa using h
    subst this
    simp [storeAt]
  | cons o rest ih =>
    cases i with
    | zero => simp [storeAt]
    | succ i' =>
      simp only [storeAt, List.length_cons]
      exact Nat.succ_lt_succ (ih i' (by simpa using h))

theorem get_item_new_set (v : ImVec T) (x y : T) :
    (((v.new_item x).2).set_item (v.new_item x).1 y).get_item
      (v.new_item x).1 = some y := by
  have h1 : firstFree v.items ≤ v.items.length := firstFree_le_length v.items
  have h2 : firstFree v.items
      ≤ (storeAt v.items (firstFree v.items) x).length :=
    Nat.le_of_lt (lt_length_storeAt v.items (firstFree v.items) x h1)
  simp only [ImVec.new_item, ImVec.set_item, ImVec.get_item,
    ImVec.newItemId, Nat.add_sub_cancel]
  rw [if_neg (Nat.succ_ne_zero _), get?_storeAt_self _ _ _ h2]

theorem get_item_set_item_self (v : ImVec T) (id : Nat) (x w : T)
    (h : v.get_item id = some w) :
    (v.set_item id x).get_item id = some x := by
  simp only [ImVec.get_item] at h
  by_cases h0 : id = 0
  · rw [if_pos h0] at h
    exact absurd h (by simp)
  · rw [if_neg h0] at h
    have hlt : id - 1 < v.items.length := by
      cases hq : v.items.get? (id - 1) with
      | none => rw [hq] at h; exact absurd h (by simp)
      | some o => exact (List.get?_eq_some.mp hq).1
    simp only [ImVec.set_item, ImVec.get_item]
    rw [if_neg h0, get?_storeAt_self _ _ _ (Nat.le_of_lt hlt)]

theorem preedit_loop_fields (fuel : Nat) (ic : InputContext T)
    (b : List Nat) :
    (preedit_loop fuel ic b).client_win = ic.client_win
    ∧ (preedit_loop fuel ic b).input_method_id = ic.input_method_id
    ∧ (preedit_loop fuel ic b).input_context_id = ic.input_context_id := by
  induction fuel generalizing ic b with
  | zero => exact ⟨rfl, rfl, rfl⟩
  | succ fuel ih =>
    cases hra : read_attribute b with
    | none => simp [preedit_loop, hra]
    | some attr =>
      simp only [preedit_loop, hra]
      by_cases hid : attr.id = IC_SPOTLOCATION
      · rw [if_pos hid]
        cases hrp : read_point (b.drop attr.size) with
        | none => exact ih ic (b.drop attr.size)
        | some spot =>
          exact ih { ic with preedit_spot := spot } (b.drop attr.size)
      · rw [if_neg hid]
        exact ih ic (b.drop attr.size)

theorem set_ic_attr_step_fields (ic : InputContext T) (a : Attribute) :
    (set_ic_attr_step ic a).client_win = ic.client_win
    ∧ (set_ic_attr_step ic a).input_method_id = ic.input_method_id
    ∧ (set_ic_attr_step ic a).input_context_id = ic.input_context_id := by
  unfold set_ic_attr_step
  split_ifs with h0 h1 h2 h3
  · cases read_u32 a.value <;> exact ⟨rfl, rfl, rfl⟩
  · exact ⟨rfl, rfl, rfl⟩
  · exact ⟨rfl, rfl, rfl⟩
  · exact preedit_loop_fields _ ic a.value
  · exact ⟨rfl, rfl, rfl⟩

theorem set_ic_attrs_fields (attrs : List Attribute) (ic : InputContext T) :
    (set_ic_attrs ic attrs).client_win = ic.client_win
    ∧ (set_ic_attrs ic attrs).input_method_id = ic.input_method_id
    ∧ (set_ic_attrs ic attrs).input_context_id = ic.input_context_id := by
  induction attrs generalizing ic with
  | nil => exact ⟨rfl, rfl, rfl⟩
  | cons a rest ih =>
    have hs := set_ic_attr_step_fields ic a
    have hr := ih (set_ic_attr_step ic a)
    simp only [set_ic_attrs, List.foldl_cons] at hr ⊢
    exact ⟨hr.1.trans hs.1, hr.2.1.trans hs.2.1, hr.2.2.trans hs.2.2⟩

/-- Claim C8: after a successful `CreateIc`, the stored input context's
    `input_context_id` equals the slab-assigned id (the placeholder 1 is
    overwritten before the reply and the create-ic callback are
    emitted), the id in the `CreateIcReply` is that same assigned id,
    and `get_input_context` at the assigned id returns this context. -/
theorem create_ic_assigns_slab_id (h : Handler T) (st : XimConnection T)
    (im_id : Nat) (attrs : List Attribute) (im : InputMethod T)
    (him : st.input_methods.get_item im_id = some im) :
    ∃ st' ic',
      handle_request h st (.createIc im_id attrs) = some (st',
        [.sent st.client_win
          (.createIcReply im_id im.input_contexts.newItemId),
         .createdIc ic'])
      ∧ ic'.input_context_id = im.input_contexts.newItemId
      ∧ st'.get_input_context im_id im.input_contexts.newItemId = some ic'
      := by
  have hcw : (set_ic_attrs
      (InputContext.new st.client_win im_id 1 im.locale h.new_ic_data)
        attrs).client_win = st.client_win :=
    (set_ic_attrs_fields attrs
      (InputContext.new st.client_win im_id 1 im.locale h.new_ic_data)).1
  refine ⟨{ st with input_methods :=
      (st.input_methods.set_item im_id
        { im with input_contexts :=
            ((im.input_contexts.new_item (set_ic_attrs
              (InputContext.new st.client_win im_id 1 im.locale
                h.new_ic_data) attrs)).2.set_item
              im.input_contexts.newItemId
              { set_ic_attrs (InputContext.new st.client_win im_id 1
                  im.locale h.new_ic_data) attrs with
                input_context_id := im.input_contexts.newItemId }) }) },
    { set_ic_attrs (InputContext.new st.client_win im_id 1 im.locale
        h.new_ic_data) attrs with
      input_context_id := im.input_contexts.newItemId }, ?_, rfl, ?_⟩
  · simp only [handle_request, him]
    rw [hcw]
    rfl
  · simp only [XimConnection.get_input_context]
    rw [get_item_set_item_self _ _ _ _ him]
    exact get_item_new_set im.input_contexts _ _

/-- Witness for C8 at a concrete connection holding one empty input
    method: the assigned IC id is 1 and the reply carries it. -/
theorem create_ic_assigns_slab_id_witness :
    ∃ st' ic',
      handle_request hC stOpen (.createIc 1 []) = some (st',
        [.sent 7 (.createIcReply 1 1), .createdIc ic'])
      ∧ ic'.input_context_id = 1
      ∧ st'.get_input_context 1 1 = some ic' :=
  create_ic_assigns_slab_id hC stOpen 1 [] (InputMethod.new [101])
    (by decide)

/-- Claim C7: `disconnect` empties the IM slab, sets the `disconnected`
    flag, and emits exactly one destroy-ic callback per previously live
    input context (the output list is exactly the live contexts in slab
    order, so each occurs in it as often as it was live); handling a
    `Disconnect` request does the same and then sends exactly one
    `DisconnectReply`. -/
theorem disconnect_drains_all {T : Type} [DecidableEq T] (h : Handler T)
    (st : XimConnection T) :
    (st.disconnect).1.input_methods = ImVec.empty
    ∧ (st.disconnect).1.disconnected = true
    ∧ (st.disconnect).2 = (all_ics st).map Output.destroyedIc
    ∧ (∀ ic : InputContext T,
        (st.disconnect).2.count (Output.destroyedIc ic)
          = (all_ics st).count ic)
    ∧ handle_request h st .disconnect = some ((st.disconnect).1,
        (all_ics st).map Output.destroyedIc
          ++ [.sent st.client_win .disconnectReply]) := by
  have hinj : Function.Injective (Output.destroyedIc (T := T)) := by
    intro a b hab
    injection hab
  have hout : (st.disconnect).2 = (all_ics st).map Output.destroyedIc := by
    simp [XimConnection.disconnect, ImVec.drain, all_ics,
      List.map_flatten, List.map_map, Function.comp_def]
  refine ⟨rfl, rfl, hout, ?_, ?_⟩
  · intro ic
    rw [hout]
    exact List.count_map_of_injective _ _ hinj ic
  · simp only [handle_request]
    rw [hout]

/-- Claim C10: `new_connection` unconditionally inserts a fresh
    connection under `com_win`, replacing (and thereby dropping) any
    existing one; other keys are untouched; the operation performs no
    handler callback. -/
theorem new_connection_replaces_silently {T : Type} (c : XimConnections T)
    (com_win client_win : Nat) :
    (c.new_connection com_win client_win).1.get_connection com_win
        = some (XimConnection.new client_win)
    ∧ (c.new_connection com_win client_win).2 = ([] : List (Output T))
    ∧ ∀ w, w ≠ com_win →
        (c.new_connection com_win client_win).1.get_connection w
          = c.get_connection w := by
  refine ⟨?_, rfl, ?_⟩
  · simp [XimConnections.new_connection, XimConnections.get_connection]
  · intro w hw
    simp [XimConnections.new_connection, XimConnections.get_connection, hw]

/-- Witness for C10 at a concrete registry that already holds a
    connection under 5: inserting again yields the fresh connection. -/
theorem new_connection_replaces_silently_witness :
    (((XimConnections.newRegistry (T := Unit)).new_connection 5
        7).1.new_connection 5 9).1.get_connection 5
      = some (XimConnection.new 9) :=
  (new_connection_replaces_silently
    ((XimConnections.newRegistry (T := Unit)).new_connection 5 7).1 5 9).1

theorem get_im_values_loop_err {T : Type} (h : Handler T) (cw im : Nat) :
    ∀ ids out, (∃ x ∈ ids, x ≠ 0) →
      get_im_values_loop h cw im ids out
        = [.sentErr cw .badName "Unknown im attribute id" (nz im) none] := by
  intro ids
  induction ids with
  | nil =>
    intro out hbad
    obtain ⟨x, hx, _⟩ := hbad
    exact absurd hx (by simp)
  | cons a rest ih =>
    intro out hbad
    by_cases ha : a = 0
    · subst ha
      obtain ⟨x, hx, hxne⟩ := hbad
      have hxr : x ∈ rest := by
        cases List.mem_cons.mp hx with
        | inl hh => exact absurd hh hxne
        | inr hh => exact hh
      simp only [get_im_values_loop, if_pos rfl]
      exact ih _ ⟨x, hxr, hxne⟩
    · simp only [get_im_values_loop, if_neg ha]

/-- Claim C9: a `GetImValues` request whose id list contains any id
    other than 0 produces exactly one `BadName` error through the
    server's `error` shorthand and no `GetImValuesReply`; values already
    computed for earlier ids are discarded and the state is unchanged,
    wherever in the list the offending id sits. -/
theorem get_im_values_unknown_id_error {T : Type} (h : Handler T)
    (st : XimConnection T) (im_id : Nat) (ids : List Nat)
    (hbad : ∃ x ∈ ids, x ≠ 0) :
    handle_request h st (.getImValues im_id ids)
      = some (st, [.sentErr st.client_win .badName "Unknown im attribute id"
          (nz im_id) none]) := by
  simp only [handle_request]
  rw [get_im_values_loop_err h st.client_win im_id ids [] hbad]

/-- Witness for C9: an id list holding 0 before the offending id 5. -/
theorem get_im_values_unknown_id_error_witness :
    handle_request hC stW (.getImValues 1 [0, 5])
      = some (stW, [.sentErr 7 .badName "Unknown im attribute id"
          (nz 1) none]) :=
  get_im_values_unknown_id_error hC stW 1 [0, 5]
    ⟨5, by decide, by decide⟩

/-- Claim C5: on a handled `ForwardEvent` (both lookups succeed), the
    state is unchanged and the transport replies are exactly: nothing
    when the handler consumed the event and the flag is not synchronous;
    one `SyncReply` (and no pass-through) when consumed and synchronous;
    a pass-through `ForwardEvent` with identical ids, serial and event
    but empty flag - followed by the `SyncReply` exactly when the
    original flag is synchronous - when not consumed. -/
theorem forward_event_replies {T : Type} (h : Handler T)
    (st : XimConnection T) (im_id ic_id serial flag : Nat)
    (xev : List Nat) (im : InputMethod T) (ic : InputContext T)
    (him : st.input_methods.get_item im_id = some im)
    (hic : im.input_contexts.get_item ic_id = some ic) :
    ∃ out,
      handle_request h st (.forwardEvent im_id ic_id serial flag xev)
        = some (st, out)
      ∧ (h.forward_consumed ic xev = true →
          sent_reqs out = if flag.testBit 0
            then [.syncReply im_id ic_id] else [])
      ∧ (h.forward_consumed ic xev = false →
          sent_reqs out = .forwardEvent im_id ic_id serial 0 xev ::
            (if flag.testBit 0 then [.syncReply im_id ic_id] else []))
      := by
  refine ⟨[.forwarded ic xev]
      ++ (if h.forward_consumed ic xev then []
          else [.sent st.client_win
            (.forwardEvent im_id ic_id serial 0 xev)])
      ++ (if flag.testBit 0 then
            [.sent st.client_win (.syncReply im_id ic_id)]
          else []), ?_, ?_, ?_⟩
  · simp only [handle_request, him, hic]
  · intro hc
    by_cases hf : flag.testBit 0 <;>
      simp [sent_reqs, hc, hf]
  · intro hc
    by_cases hf : flag.testBit 0 <;>
      simp [sent_reqs, hc, hf]

/-- Witness for C5: a consumed synchronous event on the concrete
    connection yields exactly one `SyncReply` and no pass-through. -/
theorem forward_event_replies_witness :
    ∃ out,
      handle_request hC stW (.forwardEvent 1 1 42 1 [9])
        = some (stW, out)
      ∧ sent_reqs out = [.syncReply 1 1] := by
  obtain ⟨out, h1, h2, _⟩ :=
    forward_event_replies hC stW 1 1 42 1 [9] imW icW (by decide)
      (by decide)
  refine ⟨out, h1, ?_⟩
  have ht : Nat.testBit 1 0 = true := by decide
  have h3 := h2 (by decide)
  rw [ht, if_pos rfl] at h3
  exact h3

/-- Claim C6 (amended): `EncodingNegotiation` replies - without any IM
    lookup and leaving the state unchanged - with exactly one
    `EncodingNegotiationReply{category 0}` carrying the smallest index
    of an encoding starting with the bytes `COMPOUND_TEXT` truncated to
    a u16 (the source casts `pos as u16`, so the index is that position
    mod 65536, equal to it whenever it is below 65536), and with
    exactly one `Error{BadName, INPUTMETHODIDVALID, ic id 0}` carrying
    the fixed detail string when no encoding matches. -/
theorem encoding_negotiation_replies {T : Type} (h : Handler T)
    (st : XimConnection T) (im_id : Nat) (encodings : List (List Nat)) :
    (∀ i (hi : i < encodings.length),
        compoundText.isPrefixOf (encodings.get ⟨i, hi⟩) = true →
        (∀ j (hj : j < encodings.length), j < i →
          compoundText.isPrefixOf (encodings.get ⟨j, hj⟩) = false) →
        handle_request h st (.encodingNegotiation im_id encodings)
          = some (st, [.sent st.client_win
              (.encodingNegotiationReply im_id 0 (i % 65536))]))
    ∧ ((∀ e ∈ encodings, compoundText.isPrefixOf e = false) →
        handle_request h st (.encodingNegotiation im_id encodings)
          = some (st, [.sent st.client_win
              (.error .badName "Only COMPOUND_TEXT encoding is supported"
                errorFlagInputMethodIdValid im_id 0)])) := by
  constructor
  · intro i hi hp hmin
    have hpos := position_eq_some
      (fun e => compoundText.isPrefixOf e) encodings i hi hp hmin
    simp only [handle_request, hpos]
  · intro hnone
    have hpos := position_eq_none
      (fun e => compoundText.isPrefixOf e) encodings hnone
    simp only [handle_request, hpos]

/-- Witness for C6: with encodings `["UTF", "COMPOUND_TEXT"]` the reply
    carries index 1 (the smallest matching position). -/
theorem encoding_negotiation_replies_witness :
    handle_request hC stW
        (.encodingNegotiation 1 [[85, 84, 70], compoundText])
      = some (stW, [.sent 7 (.encodingNegotiationReply 1 0 1)]) := by
  apply (encoding_negotiation_replies hC stW 1
    [[85, 84, 70], compoundText]).1 1 (by decide) (by decide)
  intro j hj hji
  have hj0 : j = 0 := by omega
  subst hj0
  have hpf : compoundText.isPrefixOf [85, 84, 70] = false := by decide
  exact hpf

theorem position_replicate_cons (p : α → Bool) (x y : α)
    (hx : p x = false) (hy : p y = true) :
    ∀ n, position p (List.replicate n x ++ [y]) = some n := by
  intro n
  induction n with
  | zero => simp [position, hy]
  | succ n ih => simp [List.replicate_succ, position, hx, ih]

theorem encoding_negotiation_truncates {T : Type} (h : Handler T)
    (st : XimConnection T) (im_id n : Nat) (x : List Nat)
    (hx : compoundText.isPrefixOf x = false) :
    handle_request h st
        (.encodingNegotiation im_id (List.replicate n x ++ [compoundText]))
      = some (st, [.sent st.client_win
          (.encodingNegotiationReply im_id 0 (n % 65536))]) := by
  have hpos := position_replicate_cons
    (fun e => compoundText.isPrefixOf e) x compoundText hx (by decide) n
  simp only [handle_request, hpos]

/-- Counterexample to C6 as stated: with the first `COMPOUND_TEXT`
    encoding at position 65536, the reply's index is the truncated u16
    value 0, not the smallest matching position (which the second
    conjunct pins at 65536). -/
theorem encoding_negotiation_index_truncated :
    handle_request hC stW (.encodingNegotiation 1
        (List.replicate 65536 [7] ++ [compoundText]))
      = some (stW, [.sent 7 (.encodingNegotiationReply 1 0 0)])
    ∧ position (fun e => compoundText.isPrefixOf e)
        (List.replicate 65536 [7] ++ [compoundText]) = some 65536 := by
  constructor
  · have hrun := encoding_negotiation_truncates hC stW 1 65536 [7]
      (by decide)
    rw [Nat.mod_self] at hrun
    exact hrun
  · exact position_replicate_cons (fun e => compoundText.isPrefixOf e)
      [7] compoundText (by decide) (by decide) 65536

theorem mem_entriesFrom (items : List (Option T)) :
    ∀ k n x, items.get? n = some (some x)
      → (k + n + 1, x) ∈ entriesFrom k items := by
  induction items with
  | nil =>
    intro k n x hx
    simp at hx
  | cons o rest ih =>
    intro k n x hx
    cases n with
    | zero =>
      simp only [List.get?] at hx
      have ho := Option.some.inj hx
      subst ho
      simp [entriesFrom]
    | succ n' =>
      simp only [List.get?] at hx
      have hmem := ih (k + 1) n' x hx
      have harith : k + 1 + n' + 1 = k + (n' + 1) + 1 := by omega
      rw [harith] at hmem
      cases o with
      | none => simpa [entriesFrom] using hmem
      | some y => simp [entriesFrom, hmem]

theorem get_item_mem_entries (v : ImVec T) (id : Nat) (x : T)
    (h : v.get_item id = some x) : (id, x) ∈ v.entries := by
  simp only [ImVec.get_item] at h
  by_cases h0 : id = 0
  · rw [if_pos h0] at h
    exact absurd h (by simp)
  · rw [if_neg h0] at h
    cases hq : v.items.get? (id - 1) with
    | none =>
      rw [hq] at h
      exact absurd h (by simp)
    | some o =>
      rw [hq] at h
      cases o with
      | none => exact absurd h (by simp)
      | some y =>
        simp only [Option.some.injEq] at h
        rw [h] at hq
        have hmem := mem_entriesFrom v.items 0 (id - 1) x hq
        have harith : 0 + (id - 1) + 1 = id := by omega
        rw [harith] at hmem
        exact hmem

/-- Claim C4 (amended): whenever handling a request CHANGES
    `last_focused` to some pair, that pair is live in the resulting
    state (given stamp consistency, which holds in every reachable
    state): `SetIcFocus` records the stamped ids of a context it has
    just resolved, and `UnsetIcFocus` clears the field.  The claim's
    stronger clause fails: `DestroyIc`, `Close` and `Disconnect` leave
    `last_focused` untouched, so it can keep referring to a destroyed
    pair (see the counterexample). -/
theorem last_focused_fresh_implies_live {T : Type} (h : Handler T)
    (st st' : XimConnection T) (r : Request) (out : List (Output T))
    (p : Nat × Nat)
    (hws : well_stamped st = true)
    (hrun : handle_request h st r = some (st', out))
    (hsome : st'.last_focused = some p)
    (hchange : st'.last_focused ≠ st.last_focused) :
    st'.get_input_context p.1 p.2 ≠ none := by
  cases r
  all_goals try {
    simp only [handle_request, Option.some.injEq, Prod.mk.injEq] at hrun
    obtain ⟨h1, h2⟩ := hrun
    subst h1
    exact absurd rfl hchange }
  all_goals try {
    simp only [handle_request] at hrun
    (try split at hrun) <;> (try split at hrun) <;> simp at hrun <;>
      { obtain ⟨h1, h2⟩ := hrun
        subst h1
        exact absurd rfl hchange } }
  case unsetIcFocus im_id ic_id =>
    simp only [handle_request] at hrun
    split at hrun
    · simp at hrun
    · split at hrun
      · simp at hrun
      · simp only [Option.some.injEq, Prod.mk.injEq] at hrun
        obtain ⟨h1, h2⟩ := hrun
        subst h1
        exact absurd hsome (by simp)
  case setIcFocus im_id ic_id =>
    simp only [handle_request] at hrun
    split at hrun
    · simp at hrun
    · split at hrun
      · simp at hrun
      · rename_i xo im him xi ic hic
        simp only [Option.some.injEq, Prod.mk.injEq] at hrun
        obtain ⟨h1, h2⟩ := hrun
        subst h1
        have hp := Option.some.inj hsome
        have hmem1 := get_item_mem_entries _ _ _ him
        have hmem2 := get_item_mem_entries _ _ _ hic
        simp only [well_stamped] at hws
        have hws1 := (List.all_eq_true.mp hws) _ hmem1
        have hws2 := (List.all_eq_true.mp hws1) _ hmem2
        simp only [Bool.and_eq_true, decide_eq_true_eq] at hws2
        obtain ⟨hs1, hs2⟩ := hws2
        have hp1 : p.1 = im_id := by rw [← hp, ← hs1]
        have hp2 : p.2 = ic_id := by rw [← hp, ← hs2]
        simp [XimConnection.get_input_context, hp1, hp2, him, hic]

/-- Witness for C4's amended theorem: focusing the live pair (1, 1) of
    the concrete connection leaves `last_focused` pointing at a live
    context. -/
theorem last_focused_fresh_implies_live_witness :
    ∃ st' : XimConnection Unit,
      handle_request hC stW (.setIcFocus 1 1) = some (st', [])
      ∧ st'.get_input_context 1 1 ≠ none := by
  refine ⟨{ stW with last_focused := some (1, 1) }, by decide, ?_⟩
  exact last_focused_fresh_implies_live hC stW
    { stW with last_focused := some (1, 1) } (.setIcFocus 1 1) [] (1, 1)
    (by decide) (by decide) (by decide) (by decide)

/-- Counterexample to C4 as stated: Open, CreateIc, SetIcFocus, then
    DestroyIc leaves `last_focused = some (1, 1)` while input context 1
    no longer exists (its input method 1 is still live), so the
    invariant is not preserved by `DestroyIc`. -/
theorem last_focused_stale_after_destroy_ic :
    staleRun.1.last_focused = some (1, 1)
    ∧ staleRun.1.get_input_context 1 1 = none
    ∧ staleRun.1.input_methods.get_item 1 ≠ none := by
  decide

end Xim
